import Mathlib

/-
Verification of src/examples/welcome.c.

The program (function `main`, lines 7-15):

  void main() {
    char name[100];
    int i = 0;

    puts("What is your name?\n");
    while ((name[i] = getchar()) != -1 && name[i] != '\n') i += 1;
    name[i] = '\0';
    printf("Hello, %s\n", name);
  }

The embedding below models standard input as a finite list of characters
(end-of-input when the list is exhausted, at which point `getchar` returns
-1), and records for each run the full sequence of I/O events, the stores
performed into the `name` buffer (as index/value pairs, the value being the
integer actually assigned, so 10 for a newline, -1 at end-of-input and 0 for
the terminating sentinel), and the characters accumulated in the buffer.
The runtime functions `puts`, `getchar` and `printf` are part of the pnut
runtime, which is not under src/; their observable behaviour is modelled
from the spec where noted.
-/

namespace Welcome

/-- One observable I/O action of the program: a `getchar` call that returned
the value `c` (-1 at end-of-input), or a write of the character sequence `s`
to standard output. -/
inductive Event where
  | read (c : Int)
  | write (s : List Char)
deriving Repr, DecidableEq

/-- The state produced by the read loop of line 12 when it stops:
`i` is the final value of the loop index, `acc` the characters left in
`name[0..i-1]`, `stores` the list of stores `(index, value)` the loop
performed into `name` in order, `reads` the values returned by the
successive `getchar` calls, and `rest` the unread remainder of standard
input. -/
structure LoopResult where
  i : Nat
  acc : List Char
  stores : List (Nat × Int)
  reads : List Int
  rest : List Char
deriving Repr, DecidableEq

/-- The read loop `while ((name[i] = getchar()) != -1 && name[i] != '\n') i += 1;`
(line 12 of welcome.c). Each iteration makes one `getchar` call and stores
the returned value at `name[i]`. Modelled from the spec for the runtime's
`getchar` (not under src/): it yields the next character of standard input,
or -1 once the input source is exhausted. A character value is a byte code,
hence never equal to -1, so the loop continues exactly while the read
character exists and is not a newline (code 10), incrementing `i` each time
it continues. -/
def readLoop : List Char → Nat → LoopResult
  | [], i => ⟨i, [], [(i, -1)], [-1], []⟩
  | c :: cs, i =>
    if c = '\n' then ⟨i, [], [(i, 10)], [10], cs⟩
    else
      let r := readLoop cs (i + 1)
      ⟨r.i, c :: r.acc, (i, (c.toNat : Int)) :: r.stores, (c.toNat : Int) :: r.reads, r.rest⟩

/-- The declared capacity of the buffer: `char name[100];` (line 8). -/
def CAPACITY : Nat := 100

/-- One run of the read loop, started as in `main` with `i = 0`. -/
def run (input : List Char) : LoopResult := readLoop input 0

/-- The InputLine: the characters accumulated in `name[0..i-1]` when the
loop stops, i.e. the NUL-terminated sequence later passed to the greeting. -/
def inputLine (input : List Char) : List Char := (run input).acc

/-- The value of the loop index `i` after the loop (the index that receives
the terminating sentinel at line 13). -/
def finalIndex (input : List Char) : Nat := (run input).i

/-- All stores into `name` during one run, in order: the loop's stores
followed by the terminating sentinel store `name[i] = '\0'` (line 13). -/
def bufferStores (input : List Char) : List (Nat × Int) :=
  (run input).stores ++ [(finalIndex input, 0)]

/-- Modelled from the spec: the runtime `puts` is not under src/; per the
spec the prompt step writes "a fixed prompt string (\"What is your name?\")
followed by a newline", and the string literal passed at line 11 already
ends in that newline, so the write emits its argument verbatim. -/
def putsOut (s : List Char) : List Char := s

/-- Modelled from the spec: the runtime `printf` is not under src/; per the
spec the call `printf("Hello, %s\n", name)` (line 14) writes "the literal
text \"Hello, \" followed by the accumulated InputLine, followed by a
newline". -/
def printfHello (name : List Char) : List Char :=
  "Hello, ".toList ++ name ++ ['\n']

/-- The prompt string literal of line 11. -/
def PROMPT : List Char := "What is your name?\n".toList

/-- The full trace of I/O events of `main` on the given standard input:
the prompt write, then the loop's reads, then the greeting write. -/
def mainTrace (input : List Char) : List Event :=
  Event.write (putsOut PROMPT) ::
    ((run input).reads.map Event.read ++ [Event.write (printfHello (inputLine input))])

/-- The writes to standard output performed by one run, in order. -/
def outputWrites (input : List Char) : List (List Char) :=
  (mainTrace input).filterMap fun e =>
    match e with
    | Event.write s => some s
    | Event.read _ => none

/-- The byte sequence written to standard output by one run. -/
def mainOutput (input : List Char) : List Char := (outputWrites input).flatten

/-- The stopping value the loop reads: the newline code if the input
contains a newline, otherwise the -1 end-of-input sentinel. -/
def stopValue (input : List Char) : Int := if '\n' ∈ input then 10 else -1

/-- Full characterisation of the read loop, by induction on the input:
writing `t` for the longest newline-free leading segment of the input, the
loop stops with index `i + |t|`, accumulates exactly `t`, stores the
characters of `t` at consecutive indices starting at `i` followed by the
stopping value at index `i + |t|`, reads the characters of `t` followed by
the stopping value, and leaves unread exactly what follows the first
newline. -/
theorem readLoop_eq : ∀ (input : List Char) (i : Nat),
    readLoop input i =
      ⟨i + (input.takeWhile (· ≠ '\n')).length,
       input.takeWhile (· ≠ '\n'),
       ((input.takeWhile (· ≠ '\n')).enumFrom i).map (fun p => (p.1, (p.2.toNat : Int)))
         ++ [(i + (input.takeWhile (· ≠ '\n')).length, stopValue input)],
       (input.takeWhile (· ≠ '\n')).map (fun c => ((c.toNat : Int)))
         ++ [stopValue input],
       (input.dropWhile (· ≠ '\n')).tail⟩ := by
  intro input
  induction input with
  | nil =>
    intro i
    simp [readLoop, stopValue]
  | cons c cs ih =>
    intro i
    by_cases hc : c = '\n'
    · subst hc
      simp [readLoop, stopValue, List.takeWhile_cons, List.dropWhile_cons]
    · simp only [readLoop, if_neg hc, ih (i + 1), List.takeWhile_cons, List.dropWhile_cons,
        hc, decide_not, if_pos, stopValue, List.mem_cons]
      simp [hc, List.enumFrom, Ne.symm hc]
      omega

/-- The loop result of one run (`i` started at 0, as in `main`), in closed
form. -/
theorem run_eq (input : List Char) :
    run input =
      ⟨(input.takeWhile (· ≠ '\n')).length,
       input.takeWhile (· ≠ '\n'),
       ((input.takeWhile (· ≠ '\n')).enumFrom 0).map (fun p => (p.1, (p.2.toNat : Int)))
         ++ [((input.takeWhile (· ≠ '\n')).length, stopValue input)],
       (input.takeWhile (· ≠ '\n')).map (fun c => ((c.toNat : Int)))
         ++ [stopValue input],
       (input.dropWhile (· ≠ '\n')).tail⟩ := by
  simpa [run] using readLoop_eq input 0

/-- The accumulated InputLine is the longest newline-free leading segment of
the input: exactly the characters read before the first newline or
end-of-input. -/
theorem inputLine_eq (input : List Char) :
    inputLine input = input.takeWhile (· ≠ '\n') := by
  simp [inputLine, run_eq]

/-- The final loop index equals the length of the accumulated segment. -/
theorem finalIndex_eq (input : List Char) :
    finalIndex input = (input.takeWhile (· ≠ '\n')).length := by
  simp [finalIndex, run_eq]

/-- The getchar calls of one run: one per accumulated character, then the
stopping value (newline code or -1). -/
theorem reads_eq (input : List Char) :
    (run input).reads =
      (input.takeWhile (· ≠ '\n')).map (fun c => ((c.toNat : Int)))
        ++ [stopValue input] := by
  simp [run_eq]

/-- The unread remainder of one run: everything after the first newline. -/
theorem rest_eq (input : List Char) :
    (run input).rest = (input.dropWhile (· ≠ '\n')).tail := by
  simp [run_eq]

/-- The writes of one run are the prompt and then the greeting. -/
theorem outputWrites_eq (input : List Char) :
    outputWrites input = [putsOut PROMPT, printfHello (inputLine input)] := by
  simp only [outputWrites, mainTrace, List.filterMap_cons, List.filterMap_append,
    List.filterMap_map]
  simp [Function.comp]

/-- The standard-output bytes of one run, in closed form. -/
theorem mainOutput_eq (input : List Char) :
    mainOutput input =
      PROMPT ++ ("Hello, ".toList ++ input.takeWhile (· ≠ '\n') ++ ['\n']) := by
  simp [mainOutput, outputWrites_eq, printfHello, inputLine_eq, putsOut]

/-- The greeting write never coincides with the prompt write: the greeting
starts with 'H', the prompt with 'W'. -/
theorem printfHello_ne_PROMPT (name : List Char) : printfHello name ≠ PROMPT := by
  intro h
  have h1 : (printfHello name).head? = some 'H' := rfl
  rw [h] at h1
  exact absurd h1 (by decide)

/-- The longest newline-free leading segment of `n` copies of 'a' followed
by a newline is the `n` copies of 'a'. -/
theorem takeWhile_replicate_a (n : Nat) :
    (List.replicate n 'a' ++ ['\n']).takeWhile (· ≠ '\n') = List.replicate n 'a' := by
  induction n with
  | zero => simp
  | succ n ih => simp [List.replicate_succ, List.takeWhile_cons, ih]

/-- C1: for every input stream the program writes exactly the prompt
followed by the literal "Hello, ", then the accumulated InputLine — the
characters read before the first newline or end-of-input — then a single
newline; in particular for input "Alice\n" the output is the prompt line
followed by exactly "Hello, Alice\n". -/
theorem C1_greeting_format :
    (∀ input : List Char,
        mainOutput input = PROMPT ++ ("Hello, ".toList ++ inputLine input ++ ['\n']) ∧
        inputLine input = input.takeWhile (· ≠ '\n')) ∧
    mainOutput "Alice\n".toList =
      "What is your name?\n".toList ++ "Hello, Alice\n".toList := by
  refine ⟨fun input => ⟨?_, inputLine_eq input⟩, by decide⟩
  rw [mainOutput_eq, inputLine_eq]

/-- C2: the claimed bound fails on the code. With 100 non-newline
characters before the first newline, the loop's final index reaches the
declared capacity 100: the stopping newline and the terminating sentinel
are both stored at index 100 of the 100-element buffer, an out-of-bounds
store, contradicting the claim that every store lands strictly below the
capacity. -/
theorem C2_store_at_capacity :
    finalIndex (List.replicate 100 'a' ++ ['\n']) = CAPACITY ∧
    (CAPACITY, (0 : Int)) ∈ bufferStores (List.replicate 100 'a' ++ ['\n']) ∧
    ¬ (∀ s ∈ bufferStores (List.replicate 100 'a' ++ ['\n']), s.1 < CAPACITY) := by
  have hf : finalIndex (List.replicate 100 'a' ++ ['\n']) = CAPACITY := by
    rw [finalIndex_eq, takeWhile_replicate_a]
    simp [CAPACITY]
  have hm : (CAPACITY, (0 : Int)) ∈ bufferStores (List.replicate 100 'a' ++ ['\n']) := by
    rw [bufferStores, hf]
    exact List.mem_append_right _ (List.mem_singleton.mpr rfl)
  exact ⟨hf, hm, fun hall => absurd (hall _ hm) (by simp)⟩

/-- C3: the loop consumes characters one at a time and stops only on a
newline or at end-of-input: every getchar call before the last returns a
non-newline character, which is accumulated while the loop continues, and
the last call returns the newline code 10 when the input contains a newline
and the end-of-input sentinel -1 otherwise — no other value stops the
loop, and the unread remainder is exactly what follows the first newline. -/
theorem C3_stop_condition (input : List Char) :
    (run input).reads =
      (input.takeWhile (· ≠ '\n')).map (fun c => ((c.toNat : Int)))
        ++ [if '\n' ∈ input then (10 : Int) else -1] ∧
    (run input).rest = (input.dropWhile (· ≠ '\n')).tail ∧
    inputLine input = input.takeWhile (· ≠ '\n') := by
  refine ⟨?_, rest_eq input, inputLine_eq input⟩
  rw [reads_eq, stopValue]

/-- C4: the stored InputLine never contains the terminating newline; when
the loop stops on a newline, that newline is stored at the final index and
the sentinel store to the very same index follows as the last store, so the
newline is overwritten rather than retained. -/
theorem C4_no_newline_retained (input : List Char) :
    '\n' ∉ inputLine input ∧
    ('\n' ∈ input →
      ∃ pre, bufferStores input =
        pre ++ [(finalIndex input, (10 : Int)), (finalIndex input, 0)]) := by
  constructor
  · rw [inputLine_eq]
    intro hmem
    have := List.mem_takeWhile_imp hmem
    simp at this
  · intro hnl
    refine ⟨((input.takeWhile (· ≠ '\n')).enumFrom 0).map (fun p => (p.1, (p.2.toNat : Int))), ?_⟩
    simp [bufferStores, run_eq, stopValue, hnl, finalIndex_eq]

/-- C4 witness: the concrete input "Bob\n". -/
theorem C4_no_newline_retained_witness :
    '\n' ∉ inputLine "Bob\n".toList ∧
    ∃ pre, bufferStores "Bob\n".toList =
      pre ++ [(finalIndex "Bob\n".toList, (10 : Int)), (finalIndex "Bob\n".toList, 0)] :=
  ⟨(C4_no_newline_retained "Bob\n".toList).1,
   (C4_no_newline_retained "Bob\n".toList).2 (by decide)⟩

/-- C5: the very first I/O event of every run is the write of the fixed
prompt "What is your name?" followed by one newline — so it precedes every
read — and exactly one event of the trace is a write of the prompt. -/
theorem C5_prompt_first_and_once (input : List Char) :
    (mainTrace input).head? =
      some (Event.write ("What is your name?".toList ++ ['\n'])) ∧
    ((mainTrace input).countP fun e => decide (e = Event.write (putsOut PROMPT))) = 1 := by
  constructor
  · rfl
  · have hr : ((run input).reads.map Event.read).countP
        (fun e => decide (e = Event.write (putsOut PROMPT))) = 0 := by
      rw [List.countP_eq_zero]
      intro e he
      obtain ⟨c, _, rfl⟩ := List.mem_map.mp he
      simp
    have hg : ¬ (Event.write (printfHello (inputLine input)) = Event.write (putsOut PROMPT)) := by
      intro h
      exact printfHello_ne_PROMPT (inputLine input) (by injection h)
    simp [mainTrace, List.countP_cons, List.countP_append, hr, hg]

/-- C6: end-of-input before any character is read: on the empty input
stream the accumulated name is empty, the single getchar call returns the
end-of-input sentinel -1, the run completes normally, and the output is the
prompt line followed by exactly "Hello, \n". -/
theorem C6_empty_input :
    inputLine [] = [] ∧
    (run []).reads = [-1] ∧
    mainOutput [] = "What is your name?\nHello, \n".toList := by
  refine ⟨rfl, rfl, by decide⟩

/-- C7: an input with no trailing newline still terminates the run: when
the input contains no newline, the loop consumes the whole input plus one
final end-of-input getchar call, leaves nothing unread, and the output
greets with every character read. -/
theorem C7_no_trailing_newline (input : List Char) (h : '\n' ∉ input) :
    mainOutput input = PROMPT ++ ("Hello, ".toList ++ input ++ ['\n']) ∧
    (run input).rest = [] ∧
    (run input).reads.length = input.length + 1 := by
  have ht : input.takeWhile (· ≠ '\n') = input := by
    rw [List.takeWhile_eq_self_iff]
    intro x hx
    simp only [decide_eq_true_eq]
    exact fun hx' => h (hx' ▸ hx)
  refine ⟨?_, ?_, ?_⟩
  · rw [mainOutput_eq, ht]
  · rw [rest_eq, List.dropWhile_eq_nil_iff.mpr]
    · rfl
    · intro x hx
      simp only [decide_eq_true_eq]
      exact fun hx' => h (hx' ▸ hx)
  · rw [reads_eq, ht]
    simp

/-- C7 witness: the concrete input "Bob" with no trailing newline. -/
theorem C7_no_trailing_newline_witness :
    mainOutput "Bob".toList = PROMPT ++ ("Hello, ".toList ++ "Bob".toList ++ ['\n']) ∧
    (run "Bob".toList).rest = [] ∧
    (run "Bob".toList).reads.length = "Bob".toList.length + 1 :=
  C7_no_trailing_newline "Bob".toList (by decide)

/-- C8: determinism across invocations — two independent runs on equal
input streams produce identical I/O event traces and identical
standard-output byte sequences; the run is a function of the input stream
alone, matching the source, whose only state (`name`, `i`) is local to
`main` and freshly created each invocation. -/
theorem C8_deterministic (input1 input2 : List Char) (h : input1 = input2) :
    mainTrace input1 = mainTrace input2 ∧ mainOutput input1 = mainOutput input2 := by
  subst h
  exact ⟨rfl, rfl⟩

/-- C8 witness: two runs on the input "Ada". -/
theorem C8_deterministic_witness :
    mainTrace "Ada".toList = mainTrace "Ada".toList ∧
    mainOutput "Ada".toList = mainOutput "Ada".toList :=
  C8_deterministic "Ada".toList "Ada".toList rfl

/-- C9: every finite input stream yields a completed run: the loop performs
exactly one getchar call per character of the longest newline-free leading
segment plus the one stopping call, and the input splits into the consumed
prefix — that segment plus at most the one stopping newline — followed by
the unread rest. -/
theorem C9_terminates (input : List Char) :
    (run input).reads.length = (input.takeWhile (· ≠ '\n')).length + 1 ∧
    input.takeWhile (· ≠ '\n') ++ ((input.dropWhile (· ≠ '\n')).take 1
      ++ (run input).rest) = input := by
  constructor
  · rw [reads_eq]
    simp
  · have hd : (input.dropWhile (· ≠ '\n')).take 1 ++ (input.dropWhile (· ≠ '\n')).tail
        = input.dropWhile (· ≠ '\n') := by
      rw [← List.drop_one, List.take_append_drop]
    rw [rest_eq, hd, List.takeWhile_append_dropWhile]

/-- C10: the output depends only on the input prefix up to and including
the first stopping character: if two input streams have the same longest
newline-free leading segment and agree on whether the loop stops on a
newline or on end-of-input, their standard-output byte sequences are
identical, regardless of any bytes following the first newline. -/
theorem C10_output_depends_on_line (input1 input2 : List Char)
    (h : input1.takeWhile (· ≠ '\n') = input2.takeWhile (· ≠ '\n'))
    (_hs : '\n' ∈ input1 ↔ '\n' ∈ input2) :
    mainOutput input1 = mainOutput input2 := by
  rw [mainOutput_eq, mainOutput_eq, h]

/-- C10 witness: the inputs "Al\nXYZ" and "Al\nQ" agree up to and including
the first newline and produce the same output. -/
theorem C10_output_depends_on_line_witness :
    mainOutput "Al\nXYZ".toList = mainOutput "Al\nQ".toList :=
  C10_output_depends_on_line "Al\nXYZ".toList "Al\nQ".toList (by decide) (by decide)

end Welcome
